import Mathlib

/-!
Formal model of the argumentation core of the repository: the data model
(`core/arguments.py`), the grounded-extension solver and priority filter
(`core/af_solver.py`), the planner (`core/planner.py`), the ablation switch
(`core/ablation.py`), the verifier primitives (`core/verify.py`), and the
diagnosis step of the landing scenario (`demos/scenario2_landing.py`).
Python dictionaries are modelled as association lists with unique keys
(`AList`), Python sets as `Finset`, Python numbers in the bounded-metric
verifiers as exact rationals, and fallible Python code (code that can raise)
as `Option`-valued functions.
-/

/-- A parsed JSON document as produced by Python's `json.loads`: `null`,
booleans, numbers (ints and floats, modelled as exact rationals), strings,
arrays, and objects (key-value lists with unique keys). -/
inductive Json where
  | null : Json
  | bool : Bool → Json
  | num : ℚ → Json
  | str : String → Json
  | arr : List Json → Json
  | obj : List (String × Json) → Json

mutual

/-- Python `==` on parsed JSON values: `True == 1` and `1 == 1.0` hold,
lists compare pointwise, dicts compare as key-value sets. -/
def pyEq : Json → Json → Bool
  | Json.null, Json.null => true
  | Json.bool a, Json.bool b => a == b
  | Json.bool a, Json.num q => (if a then (1 : ℚ) else 0) == q
  | Json.num q, Json.bool b => q == (if b then (1 : ℚ) else 0)
  | Json.num a, Json.num b => a == b
  | Json.str a, Json.str b => a == b
  | Json.arr xs, Json.arr ys => pyEqList xs ys
  | Json.obj xs, Json.obj ys => xs.length == ys.length && pyEqObjSub xs ys
  | _, _ => false
termination_by a b => sizeOf a + sizeOf b
decreasing_by all_goals first | (simp_wf; omega) | simp_wf

def pyEqList : List Json → List Json → Bool
  | [], [] => true
  | x :: xs, y :: ys => pyEq x y && pyEqList xs ys
  | _, _ => false
termination_by xs ys => sizeOf xs + sizeOf ys
decreasing_by all_goals first | (simp_wf; omega) | simp_wf

def pyEqObjSub : List (String × Json) → List (String × Json) → Bool
  | [], _ => true
  | (k, v) :: rest, ys => pyLookupEq k v ys && pyEqObjSub rest ys
termination_by xs ys => sizeOf xs + sizeOf ys
decreasing_by all_goals first | (simp_wf; omega) | simp_wf

def pyLookupEq : String → Json → List (String × Json) → Bool
  | _, _, [] => false
  | k, v, (k2, v2) :: ys => (k == k2 && pyEq v v2) || pyLookupEq k v ys
termination_by _ v ys => sizeOf v + sizeOf ys
decreasing_by all_goals first | (simp_wf; omega) | simp_wf

end

/-- Python `str.split` with a single-character separator, on the character
list of the string: splitting keeps empty fields, and splitting the empty
string yields one empty field. -/
def splitChar (sep : Char) : List Char → List (List Char)
  | [] => [[]]
  | c :: rest =>
    let r := splitChar sep rest
    if c = sep then [] :: r
    else
      match r with
      | t :: ts => (c :: t) :: ts
      | [] => [[c]]

/-- The token list of a slash-separated JSON pointer: the source computes
`[t for t in pointer.split("/") if t]`, dropping empty tokens. -/
def jsonTokens (pointer : String) : List String :=
  ((splitChar '/' pointer.data).map String.mk).filter (fun t => t ≠ "")

/-- Digit-string parsing: a nonempty all-digit character list to its value. -/
def digitsToNat? (ds : List Char) : Option Nat :=
  if ds ≠ [] ∧ ds.all Char.isDigit then
    some (ds.foldl (fun acc c => acc * 10 + (c.toNat - '0'.toNat)) 0)
  else none

/-- Python whitespace stripping of both ends of a character list. -/
def stripChars (cs : List Char) : List Char :=
  ((cs.dropWhile Char.isWhitespace).reverse.dropWhile Char.isWhitespace).reverse

/-- Python `int(tok)` as used on a path token: whitespace is stripped, an
optional sign is allowed, and the rest must be nonempty digits; anything
else raises `ValueError`, modelled as `none`. -/
def pyInt? (s : String) : Option Int :=
  match stripChars s.data with
  | '-' :: ds => (digitsToNat? ds).map (fun n => -(n : Int))
  | '+' :: ds => (digitsToNat? ds).map (fun n => (n : Int))
  | ds => (digitsToNat? ds).map (fun n => (n : Int))

/-- Python list indexing `l[i]`: negative indices count from the end;
an index outside `[-len, len)` raises `IndexError`, modelled as `none`. -/
def pyListGet (l : List Json) (i : Int) : Option Json :=
  let j : Int := if i < 0 then (l.length : Int) + i else i
  if 0 ≤ j then l[j.toNat]? else none

/-- The pointer-resolution loop of `json_field_equals` in `core/verify.py`:
on a list, the token is parsed as an index; on anything else the source calls
`cur.get(tok)`, which on a dict yields the value or `None` for a missing key,
and on any non-dict raises `AttributeError` (modelled as `none`, caught by
the surrounding `except`). -/
def resolvePy : List String → Json → Option Json
  | [], cur => some cur
  | tok :: rest, cur =>
    match cur with
    | Json.arr l =>
      match pyInt? tok with
      | none => none
      | some i =>
        match pyListGet l i with
        | none => none
        | some x => resolvePy rest x
    | Json.obj kvs => resolvePy rest ((kvs.lookup tok).getD Json.null)
    | _ => none

/-- Resolution as the claim words it: a slash-separated path of object keys
and array indices resolves only if every object key along the path is
present; a missing key makes the path unresolvable instead of yielding
`None`. Indexing and token parsing are as in the source. -/
def specResolve : List String → Json → Option Json
  | [], cur => some cur
  | tok :: rest, cur =>
    match cur with
    | Json.arr l =>
      (pyInt? tok).bind (fun i => (pyListGet l i).bind (fun x => specResolve rest x))
    | Json.obj kvs => (kvs.lookup tok).bind (fun v => specResolve rest v)
    | _ => none

/-- The check `json_field_equals(path, pointer, expected)` of
`core/verify.py`, with the file system abstracted: `none` is a missing file,
`some none` a present file whose contents `json.loads` rejects, and
`some (some data)` a parsed document. The result is `true` for PASS and
`false` for FAIL. -/
def json_field_equals (file : Option (Option Json)) (pointer : String)
    (expected : Json) : Bool :=
  match file with
  | none => false
  | some none => false
  | some (some data) =>
    match resolvePy (jsonTokens pointer) data with
    | none => false
    | some cur => pyEq cur expected

/-- The `ActionSpec` dataclass of `core/arguments.py`: a name plus a mapping
of named parameters (parameter values modelled as JSON values). -/
structure ActionSpec where
  name : String
  params : List (String × Json)

/-- The `VerifySpec` dataclass of `core/arguments.py`. -/
structure VerifySpec where
  name : String
  params : List (String × Json)

/-- The `Argument` dataclass of `core/arguments.py`, with its defaulted
fields; note the dataclass declares no `role` field. -/
structure Argument where
  id : String
  domain : String
  topic : String
  pre : List String
  action : ActionSpec
  effects : List String
  verify : VerifySpec
  priority : Int := 0
  deadline_ms : Int := 0
  source : String := "rule"

/-- A Python `Dict[str, Argument]`: an association list with unique keys. -/
abbrev ArgMap := AList (fun _ : String => Argument)

/-- The `ArgFramework` dataclass of `core/arguments.py`: an argument mapping
plus a set of attack pairs. The dataclass has no `__post_init__` and
performs no validation of the attack pairs. -/
structure ArgFramework where
  args : ArgMap
  attacks : Finset (String × String)

/-- The function `grounded_extension` of `core/af_solver.py`: it computes
`attacked = \x7bb for (a,b) in af.attacks\x7d` and returns
`set(af.args.keys()) - attacked`, the ids with no incoming attack. -/
def grounded_extension (af : ArgFramework) : Finset String :=
  let attacked : Finset String := af.attacks.image Prod.snd
  af.args.keys.toFinset \ attacked

/-- The priority of the argument stored under a key; the `getD 0` default is
only exercised on keys the theorems below exclude (the source raises
`KeyError` on a missing key). -/
def priorityOf (args : ArgMap) (k : String) : Int :=
  ((args.lookup k).map Argument.priority).getD 0

/-- The function `filter_attacks_by_priority` of `core/af_solver.py`: keep
only attacks with `attacker.priority >= target.priority`. The source indexes
`args[attacker]` and `args[target]` and raises `KeyError` when a pair
references a missing id, modelled as `none`. -/
def filter_attacks_by_priority (args : ArgMap)
    (attacks : Finset (String × String)) : Option (Finset (String × String)) :=
  if ∀ p ∈ attacks, ((args.lookup p.1).isSome ∧ (args.lookup p.2).isSome) then
    some (attacks.filter (fun p => priorityOf args p.2 ≤ priorityOf args p.1))
  else none

/-- Modelled from the spec: one simultaneous pass of the least-fixpoint
labeling algorithm of the spec's solver section, which is absent from the
source (`grounded_extension` implements the no-incoming-attack shortcut):
an argument becomes IN when every attacker is labeled OUT, and OUT when some
attacker is labeled IN. -/
def labelStep (af : ArgFramework) :
    Finset String × Finset String → Finset String × Finset String :=
  fun st =>
    (af.args.keys.toFinset.filter (fun a => ∀ p ∈ af.attacks, p.2 = a → p.1 ∈ st.2),
     af.args.keys.toFinset.filter (fun a => ∃ p ∈ af.attacks, p.2 = a ∧ p.1 ∈ st.1))

/-- Modelled from the spec: the grounded extension by the least-fixpoint
labeling algorithm — iterate the labeling pass from the all-UNDECIDED state
until it is stable (one more pass than there are arguments suffices) and
return the ids labeled IN. -/
def groundedLabeling (af : ArgFramework) : Finset String :=
  ((labelStep af)^[af.args.keys.length + 1] (∅, ∅)).1

/-- Python's lowercase conversion of a string, character by character. -/
def pyLower (s : String) : String := String.mk (s.data.map Char.toLower)

/-- Python's `str.strip()` of a string. -/
def pyStrip (s : String) : String := String.mk (stripChars s.data)

/-- The function `get_ablation` of `core/ablation.py`: read `ISL_ABLATION`
from the environment (modelled as the `Option String` argument), default
`"none"`, strip and lowercase it, and map anything outside the four
recognized values to `"none"`. -/
def get_ablation (env : Option String) : String :=
  let v := pyLower (pyStrip (env.getD "none"))
  if v = "none" ∨ v = "no_af" ∨ v = "no_diag" ∨ v = "no_priority" then v
  else "none"

/-- The function `is_no_af` of `core/ablation.py`. -/
def is_no_af (env : Option String) : Bool := get_ablation env == "no_af"

/-- The function `is_no_diag` of `core/ablation.py`. -/
def is_no_diag (env : Option String) : Bool := get_ablation env == "no_diag"

/-- The function `is_no_priority` of `core/ablation.py`. -/
def is_no_priority (env : Option String) : Bool := get_ablation env == "no_priority"

/-- The `PlanStep` dataclass of `core/planner.py`. -/
structure PlanStep where
  arg_id : String
  priority : Int
  deadline_ms : Int

/-- The sort key comparison of `order_plan`: Python sorts ascending by the
tuple `(s.deadline_ms, -s.priority, s.arg_id)`. -/
def planLEb (s t : PlanStep) : Bool :=
  decide (s.deadline_ms < t.deadline_ms) ||
    (decide (s.deadline_ms = t.deadline_ms) &&
      (decide (-s.priority < -t.priority) ||
        (decide (-s.priority = -t.priority) && decide (s.arg_id ≤ t.arg_id))))

/-- The key comparison as a relation. -/
def planLEp (s t : PlanStep) : Prop := planLEb s t = true

/-- The function `order_plan` of `core/planner.py`: build one step per input
id that is a key of the mapping (`for i in ids if i in args`) and sort by
the key `(deadline_ms, -priority, arg_id)` with Python's stable sort. -/
def order_plan (args : ArgMap) (ids : List String) : List PlanStep :=
  let steps := ids.filterMap (fun i =>
    (args.lookup i).map (fun a => PlanStep.mk i a.priority a.deadline_ms))
  steps.mergeSort planLEb

/-- The structured result of a bounded-metric verifier: PASS/FAIL status,
the sampled history, and the elapsed time. -/
structure CheckResult where
  status : Bool
  history : List ℚ
  elapsed_s : ℚ
deriving Repr

/-- The `while t <= timeout_s` loop of `in_band` in `core/verify.py`, with
time exact (rationals): sample the metric, append it to the history, PASS
when `|val - target| <= tol`, otherwise advance time by `dt` and continue.
The `fuel` argument bounds the recursion; every run below instantiates it
so that it never runs out while `t <= timeout_s` holds (for `dt <= 0` the
source loop does not terminate, and no theorem below concerns that case).
The metric accessor is modelled as the sequence of values it returns. -/
def inBandLoop (metric : ℕ → ℚ) (target tol timeout_s dt : ℚ) :
    ℕ → ℕ → ℚ → List ℚ → CheckResult
  | 0, _, t, hist => ⟨false, hist, t⟩
  | fuel + 1, k, t, hist =>
    if t ≤ timeout_s then
      let val := metric k
      let hist2 := hist ++ [val]
      if |val - target| ≤ tol then ⟨true, hist2, t⟩
      else inBandLoop metric target tol timeout_s dt fuel (k + 1) (t + dt) hist2
    else ⟨false, hist, t⟩

/-- The number of samples the polling loops take when no sample passes:
the iterations with `k * dt <= timeout_s`, i.e. `floor (timeout_s / dt) + 1`
for positive `dt` (and none when the timeout is negative). -/
def sampleCount (timeout_s dt : ℚ) : ℕ := ((timeout_s / dt).floor + 1).toNat

/-- The function `in_band` of `core/verify.py`. -/
def in_band (metric : ℕ → ℚ) (target tol timeout_s dt : ℚ) : CheckResult :=
  inBandLoop metric target tol timeout_s dt (sampleCount timeout_s dt + 1) 0 0 []

/-- The pass condition of `reach_threshold` in `core/verify.py`:
`(direction == "down" and val <= target) or (direction == "up" and val >= target)`. -/
def reachOk (direction : String) (val target : ℚ) : Bool :=
  (direction == "down" && decide (val ≤ target)) ||
    (direction == "up" && decide (target ≤ val))

/-- The `while t <= timeout_s` loop of `reach_threshold` in `core/verify.py`,
modelled like `inBandLoop`. -/
def reachLoop (metric : ℕ → ℚ) (target : ℚ) (direction : String)
    (timeout_s dt : ℚ) : ℕ → ℕ → ℚ → List ℚ → CheckResult
  | 0, _, t, hist => ⟨false, hist, t⟩
  | fuel + 1, k, t, hist =>
    if t ≤ timeout_s then
      let val := metric k
      let hist2 := hist ++ [val]
      if reachOk direction val target then ⟨true, hist2, t⟩
      else reachLoop metric target direction timeout_s dt fuel (k + 1) (t + dt) hist2
    else ⟨false, hist, t⟩

/-- The function `reach_threshold` of `core/verify.py`. -/
def reach_threshold (metric : ℕ → ℚ) (target : ℚ) (direction : String)
    (timeout_s dt : ℚ) : CheckResult :=
  reachLoop metric target direction timeout_s dt (sampleCount timeout_s dt + 1) 0 0 []

/-- The init keyword set of the `Argument` dataclass in `core/arguments.py`. -/
def argumentInitFields : List String :=
  ["id", "domain", "topic", "pre", "action", "effects", "verify",
   "priority", "deadline_ms", "source"]

/-- The keywords passed to `Argument(...)` by the diagnosis pass of
`demos/scenario2_landing.py` (lines 211-216). -/
def scenario2DiagKwargs : List String :=
  ["id", "domain", "topic", "pre", "action", "effects", "verify",
   "priority", "source", "role"]

/-- Python dataclass call semantics for keyword arguments: the call raises
`TypeError` unless every supplied keyword is a declared field. -/
def dataclassAccepts (fields kwargs : List String) : Bool :=
  kwargs.all (fun k => fields.contains k)

/-- Modelled from the spec: the diagnosis pass of `demos/scenario2_landing.py`
(lines 208-231) as the spec intends it. The source itself cannot run: its
`Argument(..., role="diagnosis")` call raises `TypeError` because the
dataclass has no `role` field (see `dataclassAccepts` above), so the `role`
keyword is omitted here and every other field follows the source: a noop
diagnosis argument `D_<chosen>` with `priority(chosen) + 2` is inserted, the
attack `(D_<chosen>, chosen)` is added, the attack set is priority-filtered
unless the no-priority ablation is on, and the grounded extension is
recomputed over the rebuilt framework. First, the synthetic diagnosis
argument `D_<chosen>` itself: -/
def landingDiagArg (chosen : String) (aX : Argument) : Argument :=
  { id := "D_" ++ chosen, domain := "drone", topic := "diagnosis", pre := [],
    action := ⟨"noop", []⟩, effects := [], verify := ⟨"noop", []⟩,
    priority := aX.priority + 2, deadline_ms := 0, source := "drone_diag" }

/-- The remainder of the diagnosis pass of `demos/scenario2_landing.py`
(see `landingDiagArg`): insert the diagnosis argument, add the attack, apply
the priority filter unless the no-priority ablation is on, rebuild the
framework and recompute the grounded extension. -/
def landingDiagStep (args : ArgMap) (attacks : Finset (String × String))
    (chosen : String) (no_priority : Bool) :
    Option (ArgFramework × Finset String) :=
  match args.lookup chosen with
  | none => none
  | some aX =>
    let args2 := args.insert ("D_" ++ chosen) (landingDiagArg chosen aX)
    let attacks2 := insert ("D_" ++ chosen, chosen) attacks
    let eff? := if no_priority then some attacks2
                else filter_attacks_by_priority args2 attacks2
    eff?.map (fun eff =>
      let af : ArgFramework := ⟨args2, eff⟩
      (af, grounded_extension af))

/-- A minimal argument value for concrete test frameworks. -/
def plainArg (i : String) (prio : Int) : Argument :=
  { id := i, domain := "demo", topic := "demo", pre := [],
    action := ⟨"noop", []⟩, effects := [], verify := ⟨"noop", []⟩,
    priority := prio, deadline_ms := 0, source := "rule" }

/-- The chain framework of the claim: `A` attacks `B`, `B` attacks `C`. -/
def chainAF : ArgFramework :=
  ⟨(((∅ : ArgMap).insert "C" (plainArg "C" 0)).insert "B" (plainArg "B" 0)).insert
      "A" (plainArg "A" 0),
   {("A", "B"), ("B", "C")}⟩

/-- A framework whose attack set references the unknown attacker id `"a"`:
arguments `"b"` and `"c"` only, attacks `{("a", "b")}`. -/
def danglingAF : ArgFramework :=
  ⟨((∅ : ArgMap).insert "c" (plainArg "c" 0)).insert "b" (plainArg "b" 0),
   {("a", "b")}⟩

/-- The sort key of `order_plan` as a lexicographic triple, used to reason
about the order. -/
def planKey (s : PlanStep) : ℤ ×ₗ (ℤ ×ₗ String) :=
  toLex (s.deadline_ms, toLex (-s.priority, s.arg_id))

/-- Comparing any JSON value to `null` under Python equality holds exactly
for `null`. -/
theorem pyEq_null_right (e : Json) : pyEq Json.null e = true ↔ e = Json.null := by
  cases e <;> simp [pyEq]

/-- When strict resolution (missing keys fail) succeeds, the source's
resolution loop reaches the same value. -/
theorem specResolve_imp_resolvePy :
    ∀ (toks : List String) (cur v : Json),
      specResolve toks cur = some v → resolvePy toks cur = some v := by
  intro toks
  induction toks with
  | nil => intro cur v h; simpa [specResolve, resolvePy] using h
  | cons t rest ih =>
    intro cur v h
    cases cur with
    | arr l =>
      simp only [specResolve, Option.bind_eq_some] at h
      obtain ⟨i, hi, x, hx, hr⟩ := h
      simp only [resolvePy, hi, hx]
      exact ih _ _ hr
    | obj kvs =>
      simp only [specResolve, Option.bind_eq_some] at h
      obtain ⟨w, hw, hr⟩ := h
      simp only [resolvePy, hw, Option.getD_some]
      exact ih _ _ hr
    | null => simp [specResolve] at h
    | bool b => simp [specResolve] at h
    | num q => simp [specResolve] at h
    | str s => simp [specResolve] at h

/-- When the source's resolution loop reaches a value but strict resolution
fails, the reached value is `null` (the value `dict.get` substitutes for the
missing final key). -/
theorem resolvePy_null_of_spec_none :
    ∀ (toks : List String) (cur v : Json),
      resolvePy toks cur = some v → specResolve toks cur = none →
      v = Json.null := by
  intro toks
  induction toks with
  | nil => intro cur v h hn; simp [specResolve] at hn
  | cons t rest ih =>
    intro cur v h hn
    cases cur with
    | arr l =>
      cases hi : pyInt? t with
      | none => simp [resolvePy, hi] at h
      | some i =>
        cases hx : pyListGet l i with
        | none => simp [resolvePy, hi, hx] at h
        | some x =>
          simp only [resolvePy, hi, hx] at h
          simp only [specResolve, hi, hx, Option.some_bind] at hn
          exact ih _ _ h hn
    | obj kvs =>
      simp only [resolvePy] at h
      cases hlk : kvs.lookup t with
      | none =>
        rw [hlk] at h
        simp only [Option.getD_none] at h
        cases rest with
        | nil => simpa [resolvePy] using h.symm
        | cons t2 r2 => simp [resolvePy] at h
      | some w =>
        rw [hlk] at h
        simp only [Option.getD_some] at h
        simp only [specResolve, hlk, Option.some_bind] at hn
        exact ih _ _ h hn
    | null => simp [resolvePy] at h
    | bool b => simp [resolvePy] at h
    | num q => simp [resolvePy] at h
    | str s => simp [resolvePy] at h

/-- C4 counterexample: on the document `{}` with pointer `/a` and expected
value `null`, `json_field_equals` returns PASS although the path does not
resolve (the key `a` is missing), contradicting the claim that FAIL is
returned whenever the path cannot be resolved. -/
theorem json_field_equals_pass_on_unresolvable_path :
    json_field_equals (some (some (Json.obj []))) "/a" Json.null = true ∧
    specResolve (jsonTokens "/a") (Json.obj []) = none := by
  constructor
  · have h : resolvePy (jsonTokens "/a") (Json.obj []) = some Json.null := by rfl
    simp [json_field_equals, h, pyEq]
  · rfl

/-- C4 amended: `json_field_equals` returns FAIL when the file is missing or
unparsable; when the path strictly resolves, it returns the Python equality
of the reached value and the expected value; and when the path does not
strictly resolve, it can still PASS, but only with `null` as the expected
value (a missing final object key yields `None` rather than an error). -/
theorem json_field_equals_characterization :
    ∀ (pointer : String) (expected : Json),
      json_field_equals none pointer expected = false ∧
      json_field_equals (some none) pointer expected = false ∧
      (∀ data v, specResolve (jsonTokens pointer) data = some v →
        json_field_equals (some (some data)) pointer expected = pyEq v expected) ∧
      (∀ data, specResolve (jsonTokens pointer) data = none →
        json_field_equals (some (some data)) pointer expected = true →
        expected = Json.null) := by
  intro ptr expected
  refine ⟨rfl, rfl, ?_, ?_⟩
  · intro data v h
    have hr := specResolve_imp_resolvePy _ _ _ h
    simp [json_field_equals, hr]
  · intro data hnone htrue
    cases hres : resolvePy (jsonTokens ptr) data with
    | none => simp [json_field_equals, hres] at htrue
    | some v =>
      simp only [json_field_equals, hres] at htrue
      have hv := resolvePy_null_of_spec_none _ _ _ hres hnone
      subst hv
      exact (pyEq_null_right expected).mp htrue

/-- C4 witness: the characterization applied to a concrete resolvable
document. -/
theorem json_field_equals_characterization_witness :
    json_field_equals (some (some (Json.obj [("a", Json.num 5)]))) "/a"
        (Json.num 5) =
      pyEq (Json.num 5) (Json.num 5) :=
  (json_field_equals_characterization "/a" (Json.num 5)).2.2.1
    (Json.obj [("a", Json.num 5)]) (Json.num 5) (by rfl)

/-- C1: on the chain `A` attacks `B`, `B` attacks `C`, the source's
`grounded_extension` returns only `A` (the no-incoming-attack shortcut),
while the least-fixpoint labeling algorithm the spec mandates accepts both
`A` and `C`; in particular `C` is wrongly excluded by the source. -/
theorem grounded_extension_chain_shortcut :
    grounded_extension chainAF = {"A"} ∧
    groundedLabeling chainAF = {"A", "C"} ∧
    "C" ∈ groundedLabeling chainAF ∧ "C" ∉ grounded_extension chainAF := by
  refine ⟨by decide, by decide, by decide, by decide⟩

/-- C3: a framework whose attack set references the unknown attacker `"a"`
is constructed without any error, `grounded_extension` runs normally on it,
and the dangling pair is used rather than dropped: it excludes the known
target `"b"` from the result. -/
theorem dangling_attack_not_rejected :
    danglingAF.args.lookup "a" = none ∧
    ("a", "b") ∈ danglingAF.attacks ∧
    grounded_extension danglingAF = {"c"} :=
  ⟨rfl, by decide, by decide⟩

/-- C6: the set returned by `grounded_extension` is conflict-free — no
attack pair has both endpoints in it. -/
theorem grounded_extension_conflict_free (af : ArgFramework) (a b : String)
    (h : (a, b) ∈ af.attacks) :
    ¬(a ∈ grounded_extension af ∧ b ∈ grounded_extension af) := by
  rintro ⟨-, hb⟩
  have hbi : b ∈ af.attacks.image Prod.snd :=
    Finset.mem_image.mpr ⟨(a, b), h, rfl⟩
  simp only [grounded_extension, Finset.mem_sdiff] at hb
  exact hb.2 hbi

/-- C6 witness: conflict-freeness applied to the chain framework. -/
theorem grounded_extension_conflict_free_witness :
    ¬("A" ∈ grounded_extension chainAF ∧ "B" ∈ grounded_extension chainAF) :=
  grounded_extension_conflict_free chainAF "A" "B" (by decide)

/-- C5 counterexample: no value of the `ISL_ABLATION` environment variable
activates two ablations at once, so the combination bypass-solver plus
skip-diagnosis claimed reachable is not reachable. -/
theorem ablation_combination_unreachable :
    ¬∃ env : Option String, is_no_af env = true ∧ is_no_diag env = true := by
  rintro ⟨env, h1, h2⟩
  have e1 : get_ablation env = "no_af" := by simpa [is_no_af] using h1
  have e2 : get_ablation env = "no_diag" := by simpa [is_no_diag] using h2
  rw [e1] at e2
  exact absurd e2 (by decide)

/-- C5 amended: the three ablations are the modes of one enum-valued switch
read from `ISL_ABLATION`; at most one is active at a time (every pairwise
combination is unreachable), each single mode is reachable, and missing or
unrecognized values mean no ablation. -/
theorem ablation_single_enum_switch :
    (∀ env, ¬(is_no_af env = true ∧ is_no_diag env = true)) ∧
    (∀ env, ¬(is_no_af env = true ∧ is_no_priority env = true)) ∧
    (∀ env, ¬(is_no_diag env = true ∧ is_no_priority env = true)) ∧
    is_no_af (some "no_af") = true ∧
    is_no_diag (some "no_diag") = true ∧
    is_no_priority (some "no_priority") = true ∧
    get_ablation none = "none" ∧
    get_ablation (some "bogus") = "none" := by
  refine ⟨?_, ?_, ?_, by decide, by decide, by decide, by decide, by decide⟩
  · rintro env ⟨h1, h2⟩
    have e1 : get_ablation env = "no_af" := by simpa [is_no_af] using h1
    have e2 : get_ablation env = "no_diag" := by simpa [is_no_diag] using h2
    rw [e1] at e2
    exact absurd e2 (by decide)
  · rintro env ⟨h1, h2⟩
    have e1 : get_ablation env = "no_af" := by simpa [is_no_af] using h1
    have e2 : get_ablation env = "no_priority" := by simpa [is_no_priority] using h2
    rw [e1] at e2
    exact absurd e2 (by decide)
  · rintro env ⟨h1, h2⟩
    have e1 : get_ablation env = "no_diag" := by simpa [is_no_diag] using h1
    have e2 : get_ablation env = "no_priority" := by simpa [is_no_priority] using h2
    rw [e1] at e2
    exact absurd e2 (by decide)

/-- C5 witness: the amended statement applied at concrete environment
values. -/
theorem ablation_single_enum_switch_witness :
    ¬(is_no_af (some "no_af") = true ∧ is_no_diag (some "no_af") = true) ∧
    is_no_af (some "no_af") = true :=
  ⟨ablation_single_enum_switch.1 (some "no_af"),
   ablation_single_enum_switch.2.2.2.1⟩

/-- Helper for the diagnosis claim: the spec-modelled landing diagnosis
step always produces the diagnosed framework and excludes the failed
argument. -/
theorem scenario2_diag_helper
    (args : ArgMap) (attacks : Finset (String × String)) (chosen : String)
    (aX : Argument) (np : Bool)
    (hlk : args.lookup chosen = some aX) (hpr : aX.priority = 10)
    (hwf : ∀ p ∈ attacks, (args.lookup p.1).isSome ∧ (args.lookup p.2).isSome) :
    ∃ af ext, landingDiagStep args attacks chosen np = some (af, ext) ∧
      (∃ d, af.args.lookup ("D_" ++ chosen) = some d ∧ d.priority = 12 ∧
        d.action.name = "noop" ∧ d.pre = [] ∧ d.effects = []) ∧
      ("D_" ++ chosen, chosen) ∈ af.attacks ∧ chosen ∉ ext := by
  have hne : chosen ≠ "D_" ++ chosen := by
    intro h
    have hlen := congrArg String.length h
    rw [String.length_append] at hlen
    have h2 : ("D_" : String).length = 2 := rfl
    omega
  have hlk1 : (args.insert ("D_" ++ chosen) (landingDiagArg chosen aX)).lookup
      ("D_" ++ chosen) = some (landingDiagArg chosen aX) := AList.lookup_insert _
  have hlk2 : (args.insert ("D_" ++ chosen) (landingDiagArg chosen aX)).lookup
      chosen = some aX := by
    rw [AList.lookup_insert_ne hne]; exact hlk
  cases np with
  | true =>
    refine ⟨⟨args.insert ("D_" ++ chosen) (landingDiagArg chosen aX),
        insert ("D_" ++ chosen, chosen) attacks⟩,
        grounded_extension ⟨args.insert ("D_" ++ chosen) (landingDiagArg chosen aX),
          insert ("D_" ++ chosen, chosen) attacks⟩, ?_, ?_, ?_, ?_⟩
    · simp [landingDiagStep, hlk]
    · exact ⟨landingDiagArg chosen aX, hlk1,
        by simp [landingDiagArg, hpr], rfl, rfl, rfl⟩
    · exact Finset.mem_insert_self _ _
    · intro hmem
      have himg : chosen ∈ (insert ("D_" ++ chosen, chosen) attacks).image Prod.snd :=
        Finset.mem_image.mpr ⟨("D_" ++ chosen, chosen), Finset.mem_insert_self _ _, rfl⟩
      simp only [grounded_extension, Finset.mem_sdiff] at hmem
      exact hmem.2 himg
  | false =>
    have hguard : ∀ p ∈ insert ("D_" ++ chosen, chosen) attacks,
        (((args.insert ("D_" ++ chosen) (landingDiagArg chosen aX)).lookup p.1).isSome ∧
         ((args.insert ("D_" ++ chosen) (landingDiagArg chosen aX)).lookup p.2).isSome) := by
      intro p hp
      rcases Finset.mem_insert.mp hp with hpe | hpa
      · subst hpe; simp [hlk1, hlk2]
      · constructor
        · by_cases h1 : p.1 = "D_" ++ chosen
          · rw [h1, hlk1]; rfl
          · rw [AList.lookup_insert_ne h1]; exact (hwf p hpa).1
        · by_cases h2 : p.2 = "D_" ++ chosen
          · rw [h2, hlk1]; rfl
          · rw [AList.lookup_insert_ne h2]; exact (hwf p hpa).2
    have hfilter : filter_attacks_by_priority
        (args.insert ("D_" ++ chosen) (landingDiagArg chosen aX))
        (insert ("D_" ++ chosen, chosen) attacks) =
        some ((insert ("D_" ++ chosen, chosen) attacks).filter (fun p =>
          priorityOf (args.insert ("D_" ++ chosen) (landingDiagArg chosen aX)) p.2 ≤
          priorityOf (args.insert ("D_" ++ chosen) (landingDiagArg chosen aX)) p.1)) := by
      unfold filter_attacks_by_priority
      rw [if_pos hguard]
    have hp1 : priorityOf (args.insert ("D_" ++ chosen) (landingDiagArg chosen aX))
        ("D_" ++ chosen) = 12 := by
      simp [priorityOf, hlk1, landingDiagArg, hpr]
    have hp2 : priorityOf (args.insert ("D_" ++ chosen) (landingDiagArg chosen aX))
        chosen = 10 := by
      simp [priorityOf, hlk2, hpr]
    have hpairmem : ("D_" ++ chosen, chosen) ∈
        (insert ("D_" ++ chosen, chosen) attacks).filter (fun p =>
          priorityOf (args.insert ("D_" ++ chosen) (landingDiagArg chosen aX)) p.2 ≤
          priorityOf (args.insert ("D_" ++ chosen) (landingDiagArg chosen aX)) p.1) := by
      refine Finset.mem_filter.mpr ⟨Finset.mem_insert_self _ _, ?_⟩
      show priorityOf _ chosen ≤ priorityOf _ ("D_" ++ chosen)
      rw [hp1, hp2]; omega
    refine ⟨⟨args.insert ("D_" ++ chosen) (landingDiagArg chosen aX),
        (insert ("D_" ++ chosen, chosen) attacks).filter (fun p =>
          priorityOf (args.insert ("D_" ++ chosen) (landingDiagArg chosen aX)) p.2 ≤
          priorityOf (args.insert ("D_" ++ chosen) (landingDiagArg chosen aX)) p.1)⟩,
        grounded_extension ⟨args.insert ("D_" ++ chosen) (landingDiagArg chosen aX),
          (insert ("D_" ++ chosen, chosen) attacks).filter (fun p =>
            priorityOf (args.insert ("D_" ++ chosen) (landingDiagArg chosen aX)) p.2 ≤
            priorityOf (args.insert ("D_" ++ chosen) (landingDiagArg chosen aX)) p.1)⟩,
        ?_, ?_, ?_, ?_⟩
    · simp [landingDiagStep, hlk, hfilter]
    · exact ⟨landingDiagArg chosen aX, hlk1,
        by simp [landingDiagArg, hpr], rfl, rfl, rfl⟩
    · exact hpairmem
    · intro hmem
      have himg : chosen ∈ ((insert ("D_" ++ chosen, chosen) attacks).filter (fun p =>
          priorityOf (args.insert ("D_" ++ chosen) (landingDiagArg chosen aX)) p.2 ≤
          priorityOf (args.insert ("D_" ++ chosen) (landingDiagArg chosen aX)) p.1)).image
            Prod.snd :=
        Finset.mem_image.mpr ⟨("D_" ++ chosen, chosen), hpairmem, rfl⟩
      simp only [grounded_extension, Finset.mem_sdiff] at hmem
      exact hmem.2 himg


/-- C2: the source cannot perform the landing diagnosis as written — the
`Argument(..., role="diagnosis")` call at `demos/scenario2_landing.py` passes
the keyword `role`, which the `Argument` dataclass does not declare, so the
call raises `TypeError` (first conjunct); under the spec-intended behavior
with the `role` keyword dropped, a failed argument `X` of priority 10 leads
to a framework containing `D_X` with a noop action, empty preconditions and
effects and priority 12, with the attack `(D_X, X)` present, and the
recomputed grounded extension excludes `X` (second conjunct). -/
theorem scenario2_diagnosis_priority12_excludes_failed :
    dataclassAccepts argumentInitFields scenario2DiagKwargs = false ∧
    ∀ (args : ArgMap) (attacks : Finset (String × String)) (chosen : String)
      (aX : Argument) (np : Bool),
      args.lookup chosen = some aX → aX.priority = 10 →
      (∀ p ∈ attacks, (args.lookup p.1).isSome ∧ (args.lookup p.2).isSome) →
      ∃ af ext, landingDiagStep args attacks chosen np = some (af, ext) ∧
        (∃ d, af.args.lookup ("D_" ++ chosen) = some d ∧ d.priority = 12 ∧
          d.action.name = "noop" ∧ d.pre = [] ∧ d.effects = []) ∧
        ("D_" ++ chosen, chosen) ∈ af.attacks ∧ chosen ∉ ext :=
  ⟨by decide,
   fun args attacks chosen aX np hlk hpr hwf =>
     scenario2_diag_helper args attacks chosen aX np hlk hpr hwf⟩

/-- C2 witness: the diagnosis conclusion at a concrete one-argument
framework with a priority-10 argument `X`. -/
theorem scenario2_diagnosis_priority12_excludes_failed_witness :
    ∃ af ext,
      landingDiagStep ((∅ : ArgMap).insert "X" (plainArg "X" 10)) ∅ "X" false =
        some (af, ext) ∧
      (∃ d, af.args.lookup ("D_" ++ "X") = some d ∧ d.priority = 12 ∧
        d.action.name = "noop" ∧ d.pre = [] ∧ d.effects = []) ∧
      ("D_" ++ "X", "X") ∈ af.attacks ∧ "X" ∉ ext :=
  scenario2_diagnosis_priority12_excludes_failed.2
    ((∅ : ArgMap).insert "X" (plainArg "X" 10)) ∅ "X" (plainArg "X" 10) false
    rfl rfl (by simp)

/-- The planner comparison agrees with the lexicographic key order. -/
theorem planLEp_iff_key (s t : PlanStep) : planLEp s t ↔ planKey s ≤ planKey t := by
  simp only [planLEp, planLEb, planKey, Prod.Lex.le_iff, Bool.or_eq_true,
    Bool.and_eq_true, decide_eq_true_eq]

theorem planKey_injective {s t : PlanStep} (h : planKey s = planKey t) : s = t := by
  cases s with
  | mk i1 p1 d1 =>
    cases t with
    | mk i2 p2 d2 =>
      simp only [planKey, toLex_inj, Prod.mk.injEq] at h
      obtain ⟨hd, hp, hi⟩ := h
      simp only [PlanStep.mk.injEq]
      refine ⟨hi, by omega, hd⟩

instance : IsTrans PlanStep planLEp :=
  ⟨fun a b c hab hbc =>
    (planLEp_iff_key a c).mpr
      (le_trans ((planLEp_iff_key a b).mp hab) ((planLEp_iff_key b c).mp hbc))⟩

instance : IsAntisymm PlanStep planLEp :=
  ⟨fun a b hab hba =>
    planKey_injective
      (le_antisymm ((planLEp_iff_key a b).mp hab) ((planLEp_iff_key b a).mp hba))⟩

instance : IsTotal PlanStep planLEp :=
  ⟨fun a b => by
    rcases le_total (planKey a) (planKey b) with h | h
    · exact Or.inl ((planLEp_iff_key a b).mpr h)
    · exact Or.inr ((planLEp_iff_key b a).mpr h)⟩

theorem planLEb_trans (a b c : PlanStep) (hab : planLEb a b = true)
    (hbc : planLEb b c = true) : planLEb a c = true :=
  IsTrans.trans (r := planLEp) a b c hab hbc

theorem planLEb_total (a b : PlanStep) : (planLEb a b || planLEb b a) = true := by
  rcases IsTotal.total (r := planLEp) a b with h | h
  · simp [planLEp] at h; simp [h]
  · simp [planLEp] at h; simp [h]

theorem order_plan_sorted (args : ArgMap) (ids : List String) :
    List.Sorted planLEp (order_plan args ids) :=
  List.sorted_mergeSort planLEb_trans planLEb_total _

theorem order_plan_perm_of_perm (args : ArgMap) (ids1 ids2 : List String)
    (h : ids1.Perm ids2) : order_plan args ids1 = order_plan args ids2 := by
  have hperm : (order_plan args ids1).Perm (order_plan args ids2) := by
    have h1 := List.mergeSort_perm (ids1.filterMap (fun i =>
      (args.lookup i).map (fun a => PlanStep.mk i a.priority a.deadline_ms))) planLEb
    have h2 := List.mergeSort_perm (ids2.filterMap (fun i =>
      (args.lookup i).map (fun a => PlanStep.mk i a.priority a.deadline_ms))) planLEb
    exact (h1.trans (h.filterMap _)).trans h2.symm
  exact List.eq_of_perm_of_sorted hperm (order_plan_sorted args ids1)
    (order_plan_sorted args ids2)

theorem filterMap_map_arg_id (args : ArgMap) :
    ∀ ids : List String,
      ((ids.filterMap (fun i =>
        (args.lookup i).map (fun a => PlanStep.mk i a.priority a.deadline_ms))).map
          PlanStep.arg_id) =
        ids.filter (fun i => (args.lookup i).isSome) := by
  intro ids
  induction ids with
  | nil => rfl
  | cons i rest ih =>
    cases h : args.lookup i with
    | none => simp [List.filterMap_cons, List.filter_cons, h, ih]
    | some a => simp [List.filterMap_cons, List.filter_cons, h, ih]

theorem order_plan_map_perm (args : ArgMap) (ids : List String) :
    ((order_plan args ids).map PlanStep.arg_id).Perm
      (ids.filter (fun i => (args.lookup i).isSome)) := by
  have h1 := (List.mergeSort_perm (ids.filterMap (fun i =>
    (args.lookup i).map (fun a => PlanStep.mk i a.priority a.deadline_ms))) planLEb).map
      PlanStep.arg_id
  rw [filterMap_map_arg_id] at h1
  exact h1

theorem order_plan_counts (args : ArgMap) (ids : List String) (hnd : ids.Nodup) :
    ∀ i : String, ((order_plan args ids).map PlanStep.arg_id).count i =
      (if (args.lookup i).isSome ∧ i ∈ ids then 1 else 0) := by
  intro i
  rw [(order_plan_map_perm args ids).count_eq]
  by_cases hp : (args.lookup i).isSome
  · rw [List.count_filter (by simpa using hp)]
    by_cases hm : i ∈ ids
    · rw [List.count_eq_one_of_mem hnd hm, if_pos ⟨hp, hm⟩]
    · rw [List.count_eq_zero_of_not_mem hm, if_neg (by tauto)]
  · rw [List.count_eq_zero_of_not_mem (fun hmem => hp (by simpa using (List.mem_filter.mp hmem).2)),
      if_neg (by tauto)]

/-- C7: the planner order is total; `order_plan` returns the steps sorted by
ascending deadline, then descending priority, then ascending id; and the
output is identical for any permutation (iteration order) of the same
accepted-id collection. -/
theorem order_plan_sorted_total_deterministic (args : ArgMap)
    (ids1 ids2 : List String) (h : ids1.Perm ids2) :
    (∀ s t : PlanStep, planLEp s t ∨ planLEp t s) ∧
    List.Sorted planLEp (order_plan args ids1) ∧
    order_plan args ids1 = order_plan args ids2 :=
  ⟨fun s t => IsTotal.total s t, order_plan_sorted args ids1,
   order_plan_perm_of_perm args ids1 ids2 h⟩

/-- C7 witness: determinism applied to a two-id set in both iteration
orders. -/
theorem order_plan_sorted_total_deterministic_witness :
    (∀ s t : PlanStep, planLEp s t ∨ planLEp t s) ∧
    List.Sorted planLEp
      (order_plan ((∅ : ArgMap).insert "x" (plainArg "x" 1)) ["y", "x"]) ∧
    order_plan ((∅ : ArgMap).insert "x" (plainArg "x" 1)) ["y", "x"] =
      order_plan ((∅ : ArgMap).insert "x" (plainArg "x" 1)) ["x", "y"] :=
  order_plan_sorted_total_deterministic _ ["y", "x"] ["x", "y"] (by decide)

/-- C9: `order_plan` never fails on ids absent from the mapping — they are
silently omitted: the multiset of emitted step ids is exactly the input ids
that are keys, and with distinct input ids each key occurs exactly once in
the output (no error value, no placeholder step). -/
theorem order_plan_omits_unknown_ids (args : ArgMap) (ids : List String)
    (hnd : ids.Nodup) :
    ((order_plan args ids).map PlanStep.arg_id).Perm
      (ids.filter (fun i => (args.lookup i).isSome)) ∧
    ∀ i : String, ((order_plan args ids).map PlanStep.arg_id).count i =
      (if (args.lookup i).isSome ∧ i ∈ ids then 1 else 0) :=
  ⟨order_plan_map_perm args ids, order_plan_counts args ids hnd⟩

/-- C9 witness: the omission property applied to a mapping with one key and
an id list containing an unknown id. -/
theorem order_plan_omits_unknown_ids_witness :
    ((order_plan ((∅ : ArgMap).insert "x" (plainArg "x" 1)) ["x", "zz"]).map
        PlanStep.arg_id).Perm
      (["x", "zz"].filter (fun i =>
        (((∅ : ArgMap).insert "x" (plainArg "x" 1)).lookup i).isSome)) ∧
    ∀ i : String,
      ((order_plan ((∅ : ArgMap).insert "x" (plainArg "x" 1)) ["x", "zz"]).map
          PlanStep.arg_id).count i =
        (if (((∅ : ArgMap).insert "x" (plainArg "x" 1)).lookup i).isSome ∧
            i ∈ ["x", "zz"] then 1 else 0) :=
  order_plan_omits_unknown_ids _ ["x", "zz"] (by decide)

/-- The loop guard `t <= timeout_s` holds at the k-th sample exactly when
k is below the sample count. -/
theorem mul_dt_le_iff (timeout_s dt : ℚ) (hdt : 0 < dt) (k : ℕ) :
    (k : ℚ) * dt ≤ timeout_s ↔ k < sampleCount timeout_s dt := by
  rw [sampleCount]
  have h1 : (k : ℚ) * dt ≤ timeout_s ↔ (k : ℚ) ≤ timeout_s / dt :=
    (le_div_iff₀ hdt).symm
  rw [h1]
  have h2 : (k : ℚ) ≤ timeout_s / dt ↔ ((k : ℤ) : ℚ) ≤ timeout_s / dt := by
    push_cast; exact Iff.rfl
  rw [h2, ← Int.le_floor, ← Int.lt_add_one_iff, ← Int.lt_toNat]
  exact Iff.rfl

theorem inBandLoop_pass (metric : ℕ → ℚ) (target tol timeout_s dt : ℚ) :
    ∀ (d fuel k : ℕ) (hist : List ℚ),
      d < fuel →
      ((k + d : ℕ) : ℚ) * dt ≤ timeout_s →
      |metric (k + d) - target| ≤ tol →
      (0 < dt) →
      (∀ j, k ≤ j → j < k + d → ¬(|metric j - target| ≤ tol)) →
      inBandLoop metric target tol timeout_s dt fuel k ((k : ℚ) * dt) hist =
        ⟨true, hist ++ (List.range' k (d + 1)).map metric,
          ((k + d : ℕ) : ℚ) * dt⟩ := by
  intro d
  induction d with
  | zero =>
    intro fuel k hist hfuel hk hband hdt _
    cases fuel with
    | zero => omega
    | succ f =>
      simp only [Nat.add_zero] at hk hband ⊢
      rw [inBandLoop, if_pos hk, if_pos hband]
      simp [List.range']
  | succ d ih =>
    intro fuel k hist hfuel hk hband hdt hmin
    cases fuel with
    | zero => omega
    | succ f =>
      have hkd : (k : ℚ) * dt ≤ timeout_s := by
        have hle : (k : ℚ) ≤ ((k + (d + 1) : ℕ) : ℚ) := by push_cast; linarith
        calc (k : ℚ) * dt ≤ ((k + (d + 1) : ℕ) : ℚ) * dt :=
              mul_le_mul_of_nonneg_right hle (le_of_lt hdt)
          _ ≤ timeout_s := hk
      have hnot : ¬(|metric k - target| ≤ tol) := hmin k (le_refl k) (by omega)
      rw [inBandLoop, if_pos hkd, if_neg hnot]
      have ht : (k : ℚ) * dt + dt = ((k + 1 : ℕ) : ℚ) * dt := by push_cast; ring
      have hk2 : (((k + 1) + d : ℕ) : ℚ) * dt ≤ timeout_s := by
        have he : (k + 1) + d = k + (d + 1) := by omega
        rw [he]; exact hk
      have hband2 : |metric ((k + 1) + d) - target| ≤ tol := by
        have he : (k + 1) + d = k + (d + 1) := by omega
        rw [he]; exact hband
      have hmin2 : ∀ j, k + 1 ≤ j → j < (k + 1) + d → ¬(|metric j - target| ≤ tol) := by
        intro j h1 h2; exact hmin j (by omega) (by omega)
      rw [ht, ih f (k + 1) (hist ++ [metric k]) (by omega) hk2 hband2 hdt hmin2]
      have he : (k + 1) + d = k + (d + 1) := by omega
      rw [he]
      congr 1
      rw [List.append_assoc]
      congr 1

theorem inBandLoop_fail (metric : ℕ → ℚ) (target tol timeout_s dt : ℚ)
    (hdt : 0 < dt)
    (hnone : ∀ j : ℕ, (j : ℚ) * dt ≤ timeout_s → ¬(|metric j - target| ≤ tol)) :
    ∀ (d fuel k : ℕ) (hist : List ℚ),
      d < fuel → k + d = sampleCount timeout_s dt →
      inBandLoop metric target tol timeout_s dt fuel k ((k : ℚ) * dt) hist =
        ⟨false, hist ++ (List.range' k d).map metric,
          ((sampleCount timeout_s dt : ℕ) : ℚ) * dt⟩ := by
  intro d
  induction d with
  | zero =>
    intro fuel k hist hfuel hkN
    cases fuel with
    | zero => omega
    | succ f =>
      have hkgt : ¬((k : ℚ) * dt ≤ timeout_s) := by
        rw [mul_dt_le_iff timeout_s dt hdt k]; omega
      rw [inBandLoop, if_neg hkgt]
      simp only [Nat.add_zero] at hkN
      subst hkN
      simp [List.range']
  | succ d ih =>
    intro fuel k hist hfuel hkN
    cases fuel with
    | zero => omega
    | succ f =>
      have hkle : (k : ℚ) * dt ≤ timeout_s := by
        rw [mul_dt_le_iff timeout_s dt hdt k]; omega
      have hnot := hnone k hkle
      rw [inBandLoop, if_pos hkle, if_neg hnot]
      have ht : (k : ℚ) * dt + dt = ((k + 1 : ℕ) : ℚ) * dt := by push_cast; ring
      rw [ht, ih f (k + 1) (hist ++ [metric k]) (by omega) (by omega)]
      congr 1
      rw [List.append_assoc]
      congr 1

/-- C8: with positive step `dt`, `in_band` returns PASS at the first sampling
iteration whose value is within `tol` of `target`, carrying exactly the
samples taken so far and the elapsed time `k * dt` (a sample at elapsed time
equal to `timeout_s` still counts, since the loop condition is non-strict);
if no sample within the timeout satisfies the band, it returns FAIL with the
full sample history. -/
theorem in_band_first_pass_or_full_fail (metric : ℕ → ℚ)
    (target tol timeout_s dt : ℚ) (hdt : 0 < dt) :
    (∀ k : ℕ, (k : ℚ) * dt ≤ timeout_s → |metric k - target| ≤ tol →
      (∀ j, j < k → ¬(|metric j - target| ≤ tol)) →
      in_band metric target tol timeout_s dt =
        ⟨true, (List.range (k + 1)).map metric, (k : ℚ) * dt⟩) ∧
    ((∀ k : ℕ, (k : ℚ) * dt ≤ timeout_s → ¬(|metric k - target| ≤ tol)) →
      in_band metric target tol timeout_s dt =
        ⟨false, (List.range (sampleCount timeout_s dt)).map metric,
          ((sampleCount timeout_s dt : ℕ) : ℚ) * dt⟩) := by
  constructor
  · intro k hk hband hmin
    have hfuel : k < sampleCount timeout_s dt + 1 := by
      have := (mul_dt_le_iff timeout_s dt hdt k).mp hk
      omega
    have hk0 : ((0 + k : ℕ) : ℚ) * dt ≤ timeout_s := by simpa using hk
    have hband0 : |metric (0 + k) - target| ≤ tol := by simpa using hband
    have hmin0 : ∀ j, 0 ≤ j → j < 0 + k → ¬(|metric j - target| ≤ tol) :=
      fun j _ hj => hmin j (by omega)
    have hpass := inBandLoop_pass metric target tol timeout_s dt k
      (sampleCount timeout_s dt + 1) 0 [] hfuel hk0 hband0 hdt hmin0
    unfold in_band
    rw [List.range_eq_range']
    simpa using hpass
  · intro hnone
    have hnone2 : ∀ j : ℕ, (j : ℚ) * dt ≤ timeout_s →
        ¬(|metric j - target| ≤ tol) := hnone
    have hfail := inBandLoop_fail metric target tol timeout_s dt hdt hnone2
      (sampleCount timeout_s dt) (sampleCount timeout_s dt + 1) 0 []
      (by omega) (by omega)
    unfold in_band
    rw [List.range_eq_range']
    simpa using hfail

/-- C8 witness: a metric entering the band exactly at the last allowed
sample, at elapsed time equal to the timeout. -/
theorem in_band_first_pass_witness :
    in_band (fun k => if k = 3 then 70 else 100) 70 (1 / 2) (3 / 10) (1 / 10) =
      ⟨true, (List.range (3 + 1)).map (fun k => if k = 3 then 70 else 100),
        ((3 : ℕ) : ℚ) * (1 / 10)⟩ :=
  (in_band_first_pass_or_full_fail (fun k => if k = 3 then 70 else 100) 70
      (1 / 2) (3 / 10) (1 / 10) (by norm_num)).1 3 (by norm_num) (by norm_num)
    (by intro j hj; interval_cases j <;> norm_num)

/-- The reach-threshold loop runs to the end of the timeout window when no
sample satisfies the direction test. -/
theorem reachLoop_fail (metric : ℕ → ℚ) (target : ℚ) (direction : String)
    (timeout_s dt : ℚ) (hdt : 0 < dt)
    (hok : ∀ j : ℕ, reachOk direction (metric j) target = false) :
    ∀ (d fuel k : ℕ) (hist : List ℚ),
      d < fuel → k + d = sampleCount timeout_s dt →
      reachLoop metric target direction timeout_s dt fuel k ((k : ℚ) * dt) hist =
        ⟨false, hist ++ (List.range' k d).map metric,
          ((sampleCount timeout_s dt : ℕ) : ℚ) * dt⟩ := by
  intro d
  induction d with
  | zero =>
    intro fuel k hist hfuel hkN
    cases fuel with
    | zero => omega
    | succ f =>
      have hkgt : ¬((k : ℚ) * dt ≤ timeout_s) := by
        rw [mul_dt_le_iff timeout_s dt hdt k]; omega
      rw [reachLoop, if_neg hkgt]
      simp only [Nat.add_zero] at hkN
      subst hkN
      simp [List.range']
  | succ d ih =>
    intro fuel k hist hfuel hkN
    cases fuel with
    | zero => omega
    | succ f =>
      have hkle : (k : ℚ) * dt ≤ timeout_s := by
        rw [mul_dt_le_iff timeout_s dt hdt k]; omega
      have hnot : ¬(reachOk direction (metric k) target = true) := by
        simp [hok k]
      rw [reachLoop, if_pos hkle, if_neg hnot]
      have ht : (k : ℚ) * dt + dt = ((k + 1 : ℕ) : ℚ) * dt := by push_cast; ring
      rw [ht, ih f (k + 1) (hist ++ [metric k]) (by omega) (by omega)]
      congr 1
      rw [List.append_assoc]
      congr 1

/-- C10: for any direction string other than `"up"` and `"down"`, the pass
condition of `reach_threshold` is identically false, so the verifier samples
for the entire timeout window and returns FAIL with the complete history and
elapsed time, raising no error. -/
theorem reach_threshold_unknown_direction_fails (metric : ℕ → ℚ)
    (target : ℚ) (direction : String) (timeout_s dt : ℚ) (hdt : 0 < dt)
    (hup : direction ≠ "up") (hdown : direction ≠ "down") :
    reach_threshold metric target direction timeout_s dt =
      ⟨false, (List.range (sampleCount timeout_s dt)).map metric,
        ((sampleCount timeout_s dt : ℕ) : ℚ) * dt⟩ := by
  have hok : ∀ j : ℕ, reachOk direction (metric j) target = false := by
    intro j
    have h1 : (direction == "down") = false := beq_eq_false_iff_ne.mpr hdown
    have h2 : (direction == "up") = false := beq_eq_false_iff_ne.mpr hup
    simp [reachOk, h1, h2]
  have hfail := reachLoop_fail metric target direction timeout_s dt hdt hok
    (sampleCount timeout_s dt) (sampleCount timeout_s dt + 1) 0 []
    (by omega) (by omega)
  unfold reach_threshold
  rw [List.range_eq_range']
  simpa using hfail

/-- C10 witness: the misspelled direction `"UP"` never passes even though
the metric satisfies the would-be `"up"` test. -/
theorem reach_threshold_unknown_direction_fails_witness :
    reach_threshold (fun _ => 0) 0 "UP" (1 / 5) (1 / 10) =
      ⟨false, (List.range (sampleCount (1 / 5) (1 / 10))).map (fun _ => (0 : ℚ)),
        ((sampleCount (1 / 5) (1 / 10) : ℕ) : ℚ) * (1 / 10)⟩ :=
  reach_threshold_unknown_direction_fails (fun _ => 0) 0 "UP" (1 / 5) (1 / 10)
    (by norm_num) (by decide) (by decide)
